import Mathlib

/-!
Verification of the tic-tac-toe game logic of this repository.

The embedding models the game core of the two source files:
* `calculateGameResult` — the version-2/3 evaluator returning a `GameResult`
  (status / winner / winnerLine);
* `calculateWinnerLine` — the version-1 evaluator returning the winning line
  or `null`;
* the `Game` component state (`history`, `currentMove`) with `handlePlay`,
  `jumpTo`, the `handleClick` guard of the `Board` component, and the
  `moveLocations` derivation.

Cells hold `null`, `'X'` or `'O'` in the source; we model a cell as
`Option Mark`, with JS truthiness of a cell being `Option.isSome`.
Out-of-range JS array reads yield `undefined`, which is falsy; `getCell`
models this with `List.getD _ _ none`.
-/

namespace TicTacToe

/-- A mark placed in a cell: the strings 'X' and 'O' of the source. -/
inductive Mark where
  | X : Mark
  | O : Mark
deriving DecidableEq, Repr, Fintype

/-- A cell of the board: `null` (empty) or a mark. -/
abbrev Cell := Option Mark

/-- A board: the `squares` array of the source. The program only ever builds
boards of length 9. -/
abbrev Board := List Cell

/-- `squares[i]` as the guard conditions read it: an out-of-range read yields
`undefined`, which like `null` is falsy, so both map to `none`. -/
def getCell (squares : Board) (i : Nat) : Cell :=
  squares.getD i none

/-- Game status literals: 'Not Finished' | 'Draw' | 'Has Winner'. -/
inductive GameStatus where
  | NotFinished : GameStatus
  | Draw : GameStatus
  | HasWinner : GameStatus
deriving DecidableEq, Repr

/-- The `GameResult` interface: `status` with optional `winner` and
`winnerLine` fields (absent fields are `none`). A line is the index triple
`[a, b, c]`. -/
structure GameResult where
  status : GameStatus
  winner : Option Mark := none
  winnerLine : Option (Nat × Nat × Nat) := none
deriving DecidableEq, Repr

/-- The `lines` array, identical in both source versions: 3 rows, 3 columns,
2 diagonals, in source order. -/
def lines : List (Nat × Nat × Nat) :=
  [(0, 1, 2), (3, 4, 5), (6, 7, 8),
   (0, 3, 6), (1, 4, 7), (2, 5, 8),
   (0, 4, 8), (2, 4, 6)]

/-- The loop condition `squares[a] && squares[a] === squares[b] &&
squares[a] === squares[c]`, shared by both evaluator versions. -/
def checkLine (squares : Board) (l : Nat × Nat × Nat) : Bool :=
  (getCell squares l.1).isSome
    && (getCell squares l.1 == getCell squares l.2.1)
    && (getCell squares l.1 == getCell squares l.2.2)

/-- `calculateGameResult` (versions 2/3): scan `lines` in order; on the first
match return `Has Winner` with `winner = squares[a]` and `winnerLine =
lines[i]`; otherwise `Draw` when `squares.every(Boolean)`, else
`Not Finished`. -/
def calculateGameResult (squares : Board) : GameResult :=
  match lines.find? (fun l => checkLine squares l) with
  | some l =>
      { status := GameStatus.HasWinner
        winner := getCell squares l.1
        winnerLine := some l }
  | none =>
      { status := if squares.all (fun c => c.isSome) then GameStatus.Draw
                  else GameStatus.NotFinished }

/-- `calculateWinnerLine` (version 1): scan the same `lines` in order and
return the first matching line, or `null` when none matches. -/
def calculateWinnerLine (squares : Board) : Option (Nat × Nat × Nat) :=
  lines.find? (fun l => checkLine squares l)

/-- The `Game` component state: the two `useState` hooks `history` and
`currentMove` (the `sortAscend` hook only affects presentation).
`currentMove` is a JS number set only by `jumpTo` and `handlePlay`; we model
it as `Int` since `jumpTo` performs no range check. -/
structure GameState where
  history : List Board
  currentMove : Int
deriving DecidableEq, Repr

/-- `Array(9).fill(null)`: the all-empty board. -/
def emptyBoard : Board := List.replicate 9 none

/-- The initial state: `useState([Array(9).fill(null)])`, `useState(0)`. -/
def initialGameState : GameState :=
  { history := [emptyBoard], currentMove := 0 }

/-- `xIsNext = currentMove % 2 === 0`. JS `%` is truncating remainder; for
the test `=== 0` it agrees with Lean's `Int.emod`. -/
def xIsNext (s : GameState) : Bool :=
  s.currentMove % 2 == 0

/-- A JS array read `history[i]` with an arbitrary integer index:
`undefined` (modelled `none`) when `i` is out of range. -/
def getBoard? (history : List Board) (i : Int) : Option Board :=
  if 0 ≤ i then history[i.toNat]? else none

/-- `currentSquares = history[currentMove]`. -/
def currentSquares (s : GameState) : Option Board :=
  getBoard? s.history s.currentMove

/-- `arr.slice(0, e)` for an integer `e`: a negative `e` counts from the end
of the array (clamped at 0), a nonnegative `e` is clamped at the length. -/
def jsSlice (l : List Board) (e : Int) : List Board :=
  if e < 0 then l.take ((l.length : Int) + e).toNat else l.take e.toNat

/-- `handlePlay(nextSquares)`: truncate `history` to `[0..currentMove]`,
append `nextSquares`, and select the new last index. -/
def handlePlay (s : GameState) (nextSquares : Board) : GameState :=
  let nextHistory := jsSlice s.history (s.currentMove + 1) ++ [nextSquares]
  { history := nextHistory, currentMove := (nextHistory.length : Int) - 1 }

/-- `jumpTo(nextMove)`: `setCurrentMove(nextMove)` and nothing else. -/
def jumpTo (s : GameState) (nextMove : Int) : GameState :=
  { s with currentMove := nextMove }

/-- `handleClick(i)` of the `Board` component, as the board transformation it
requests: `none` when the click is silently ignored (cell filled, or status
not 'Not Finished'), otherwise the `nextSquares` passed to `onPlay`. The
rendered board has 9 squares, so `i` ranges over `0..8`. -/
def handleClick (xNext : Bool) (squares : Board) (i : Fin 9) : Option Board :=
  if (getCell squares i.val).isSome
      || ((calculateGameResult squares).status != GameStatus.NotFinished) then
    none
  else
    some (squares.set i.val (some (if xNext then Mark.X else Mark.O)))

/-- One click on square `i` of the rendered game: `Board` receives
`squares = history[currentMove]` and `xIsNext`, `handleClick` either ignores
the click (state unchanged) or calls `handlePlay` with the next board.
`none` only when `history[currentMove]` is `undefined` (the component would
fault rendering); never reached from the initial state. -/
def play (s : GameState) (i : Fin 9) : Option GameState :=
  match currentSquares s with
  | none => none
  | some squares =>
      match handleClick (xIsNext s) squares i with
      | none => some s
      | some nextSquares => some (handlePlay s nextSquares)

/-- The indices where two adjacent boards differ, in scan order of the
`moveLocations` loop (`i` from 0 to `squares.length`, testing
`squares[i] !== prevSquares[i]`). -/
def diffIndices (prevSquares squares : Board) : List Nat :=
  (List.range squares.length).filter
    (fun i => getCell squares i != getCell prevSquares i)

/-- The body of the `moveLocations` map for a move `> 0`: return
`[floor(i / 3), i % 3]` for the first index `i` where the two boards differ;
`none` models `throw new Error('Invalid move')` when no index differs. -/
def moveLocation (prevSquares squares : Board) : Option (Nat × Nat) :=
  match (List.range squares.length).find?
      (fun i => getCell squares i != getCell prevSquares i) with
  | some i => some (i / 3, i % 3)
  | none => none

/-- The `moveLocations` derivation over a whole history: entry 0 is `null`
(modelled `Except.ok none`); entry `move > 0` is the location derived from
`history[move-1]` and `history[move]`, with `Except.error ()` modelling the
thrown `Error('Invalid move')`. -/
def moveLocations (history : List Board) :
    List (Except Unit (Option (Nat × Nat))) :=
  (List.range history.length).map fun move =>
    if move = 0 then Except.ok none
    else
      match moveLocation (history.getD (move - 1) []) (history.getD move []) with
      | some loc => Except.ok (some loc)
      | none => Except.error ()

/-! ### Spec-side vocabulary -/

/-- The spec's notion of a winning line on a board: the three indexed cells
are all non-empty and hold the same mark `m`. -/
def LineFilledWith (squares : Board) (l : Nat × Nat × Nat) (m : Mark) : Prop :=
  getCell squares l.1 = some m ∧ getCell squares l.2.1 = some m ∧
    getCell squares l.2.2 = some m

instance (squares : Board) (l : Nat × Nat × Nat) (m : Mark) :
    Decidable (LineFilledWith squares l m) :=
  inferInstanceAs (Decidable (_ ∧ _ ∧ _))

/-! ### Helper lemmas -/

theorem checkLine_iff (squares : Board) (l : Nat × Nat × Nat) :
    checkLine squares l = true ↔ ∃ m : Mark, LineFilledWith squares l m := by
  unfold checkLine LineFilledWith
  cases h : getCell squares l.1 with
  | none => simp [h]
  | some m =>
    simp only [h, Option.isSome_some, Bool.true_and, Bool.and_eq_true, beq_iff_eq,
      Option.some.injEq]
    constructor
    · rintro ⟨h2, h3⟩
      exact ⟨m, rfl, h2.symm, h3.symm⟩
    · rintro ⟨m', h1, h2, h3⟩
      subst h1
      exact ⟨h2.symm, h3.symm⟩

theorem calculateGameResult_find_some (squares : Board) (l : Nat × Nat × Nat)
    (h : lines.find? (fun l => checkLine squares l) = some l) :
    calculateGameResult squares =
      { status := GameStatus.HasWinner, winner := getCell squares l.1,
        winnerLine := some l } := by
  unfold calculateGameResult
  rw [h]

theorem calculateGameResult_find_none (squares : Board)
    (h : lines.find? (fun l => checkLine squares l) = none) :
    calculateGameResult squares =
      { status := if squares.all (fun c => c.isSome) then GameStatus.Draw
                  else GameStatus.NotFinished } := by
  unfold calculateGameResult
  rw [h]

theorem getD_eq_getElem {α : Type} (l : List α) (i : Nat) (h : i < l.length)
    (d : α) : l.getD i d = l[i] := by
  rw [List.getD_eq_getElem?_getD, List.getElem?_eq_getElem h]
  rfl

/-! ### Claim theorems -/

/-- C1: for every 9-cell board containing at least one winning line,
`calculateGameResult` returns status `Has Winner`, with `winner` the repeated
mark of the first matching line in scan order and `winnerLine` that line's
index triple. -/
theorem calculateGameResult_hasWinner (squares : Board)
    (h9 : squares.length = 9)
    (hwin : ∃ l ∈ lines, ∃ m : Mark, LineFilledWith squares l m) :
    ∃ i, i < lines.length ∧ ∃ m : Mark,
      LineFilledWith squares (lines.getD i (0, 0, 0)) m ∧
      (∀ j, j < i → ¬∃ m' : Mark, LineFilledWith squares (lines.getD j (0, 0, 0)) m') ∧
      calculateGameResult squares =
        { status := GameStatus.HasWinner, winner := some m,
          winnerLine := some (lines.getD i (0, 0, 0)) } := by
  obtain ⟨l0, hl0, m0, hm0⟩ := hwin
  have hp : checkLine squares l0 = true := (checkLine_iff squares l0).mpr ⟨m0, hm0⟩
  cases hfind : lines.find? (fun l => checkLine squares l) with
  | none => exact absurd hp (by simpa using List.find?_eq_none.mp hfind l0 hl0)
  | some l =>
    obtain ⟨hpl, i, hi, hgl, hmin⟩ := List.find?_eq_some_iff_getElem.mp hfind
    obtain ⟨m, hm⟩ := (checkLine_iff squares l).mp (by simpa using hpl)
    refine ⟨i, hi, m, ?_, ?_, ?_⟩
    · rw [getD_eq_getElem lines i hi, hgl]
      exact hm
    · intro j hj hcontra
      obtain ⟨m', hm'⟩ := hcontra
      have hfalse := hmin j hj
      have hj' : j < lines.length := Nat.lt_trans hj hi
      rw [getD_eq_getElem lines j hj'] at hm'
      have htrue : checkLine squares lines[j] = true :=
        (checkLine_iff squares lines[j]).mpr ⟨m', hm'⟩
      simp [htrue] at hfalse
    · rw [calculateGameResult_find_some squares l hfind,
        getD_eq_getElem lines i hi, hgl, hm.1]

/-- C1 witness: a board with X on the top row. -/
theorem calculateGameResult_hasWinner_witness :
    (List.replicate 3 (some Mark.X) ++ List.replicate 6 (none : Cell)).length = 9 ∧
    (∃ l ∈ lines, ∃ m : Mark,
      LineFilledWith (List.replicate 3 (some Mark.X) ++ List.replicate 6 (none : Cell)) l m) ∧
    (∃ i, i < lines.length ∧ ∃ m : Mark,
      LineFilledWith (List.replicate 3 (some Mark.X) ++ List.replicate 6 (none : Cell))
        (lines.getD i (0, 0, 0)) m ∧
      (∀ j, j < i → ¬∃ m' : Mark,
        LineFilledWith (List.replicate 3 (some Mark.X) ++ List.replicate 6 (none : Cell))
          (lines.getD j (0, 0, 0)) m') ∧
      calculateGameResult (List.replicate 3 (some Mark.X) ++ List.replicate 6 (none : Cell)) =
        { status := GameStatus.HasWinner, winner := some m,
          winnerLine := some (lines.getD i (0, 0, 0)) }) :=
  ⟨by decide, by decide,
    calculateGameResult_hasWinner _ (by decide) (by decide)⟩

/-- C2: for every 9-cell board with no winning line, `calculateGameResult`
returns `Draw` exactly when every cell is non-empty and `Not Finished`
otherwise; neither a winner nor a winner line is reported. -/
theorem calculateGameResult_noWinner (squares : Board)
    (h9 : squares.length = 9)
    (hno : ∀ l ∈ lines, ¬∃ m : Mark, LineFilledWith squares l m) :
    ((calculateGameResult squares).status = GameStatus.Draw ↔
      ∀ c ∈ squares, c.isSome = true) ∧
    ((calculateGameResult squares).status = GameStatus.NotFinished ↔
      ∃ c ∈ squares, c = none) ∧
    (calculateGameResult squares).winner = none ∧
    (calculateGameResult squares).winnerLine = none := by
  have hfind : lines.find? (fun l => checkLine squares l) = none := by
    rw [List.find?_eq_none]
    intro l hl
    simp only [Bool.not_eq_true]
    rw [← Bool.not_eq_true, checkLine_iff]
    exact hno l hl
  rw [calculateGameResult_find_none squares hfind]
  by_cases hall : squares.all (fun c => c.isSome) = true
  · have hmem := List.all_eq_true.mp hall
    rw [if_pos hall]
    refine ⟨iff_of_true rfl hmem, ?_, rfl, rfl⟩
    refine iff_of_false (by simp) ?_
    rintro ⟨c, hc, rfl⟩
    simpa using hmem _ hc
  · have hex : ∃ c ∈ squares, c = none := by
      rw [List.all_eq_true] at hall
      push_neg at hall
      obtain ⟨c, hc, hcnone⟩ := hall
      cases c with
      | none => exact ⟨none, hc, rfl⟩
      | some v => simp at hcnone
    rw [if_neg hall]
    refine ⟨?_, iff_of_true rfl hex, rfl, rfl⟩
    refine iff_of_false (by simp) ?_
    intro hmem
    obtain ⟨c, hc, hcn⟩ := hex
    have hsome := hmem c hc
    rw [hcn] at hsome
    simp at hsome

/-- C2 witness: the all-empty board (no winner, a cell empty) is
`Not Finished`, never `Draw`. -/
theorem calculateGameResult_noWinner_witness :
    (emptyBoard.length = 9) ∧
    (∀ l ∈ lines, ¬∃ m : Mark, LineFilledWith emptyBoard l m) ∧
    (((calculateGameResult emptyBoard).status = GameStatus.Draw ↔
        ∀ c ∈ emptyBoard, c.isSome = true) ∧
      ((calculateGameResult emptyBoard).status = GameStatus.NotFinished ↔
        ∃ c ∈ emptyBoard, c = none) ∧
      (calculateGameResult emptyBoard).winner = none ∧
      (calculateGameResult emptyBoard).winnerLine = none) :=
  ⟨by decide, by decide, calculateGameResult_noWinner emptyBoard (by decide) (by decide)⟩

/-- C3: the evaluator scans the 8 lines in the fixed source order (rows top
to bottom, columns left to right, then the two diagonals); when a line at
index `i` is satisfied, the reported line is the satisfied line of least
index `j ≤ i`; in particular a board of nine equal marks reports line
`(0, 1, 2)`. -/
theorem calculateGameResult_priority (squares : Board) (i : Nat)
    (hi : i < lines.length)
    (hw : checkLine squares (lines.getD i (0, 0, 0)) = true) :
    lines = [(0, 1, 2), (3, 4, 5), (6, 7, 8),
             (0, 3, 6), (1, 4, 7), (2, 5, 8),
             (0, 4, 8), (2, 4, 6)] ∧
    (∃ j, j ≤ i ∧ j < lines.length ∧
      checkLine squares (lines.getD j (0, 0, 0)) = true ∧
      (∀ k, k < j → checkLine squares (lines.getD k (0, 0, 0)) = false) ∧
      calculateGameResult squares =
        { status := GameStatus.HasWinner,
          winner := getCell squares (lines.getD j (0, 0, 0)).1,
          winnerLine := some (lines.getD j (0, 0, 0)) }) ∧
    (∀ m : Mark, calculateGameResult (List.replicate 9 (some m)) =
      { status := GameStatus.HasWinner, winner := some m,
        winnerLine := some (0, 1, 2) }) := by
  refine ⟨rfl, ?_, fun m => by cases m <;> decide⟩
  rw [getD_eq_getElem lines i hi] at hw
  cases hfind : lines.find? (fun l => checkLine squares l) with
  | none =>
    exact absurd hw (by simpa using List.find?_eq_none.mp hfind lines[i] (lines.getElem_mem hi))
  | some l =>
    obtain ⟨hpl, j, hj, hgl, hmin⟩ := List.find?_eq_some_iff_getElem.mp hfind
    have hji : j ≤ i := by
      by_contra hlt
      push_neg at hlt
      have := hmin i hlt
      simp [hw] at this
    refine ⟨j, hji, hj, ?_, ?_, ?_⟩
    · rw [getD_eq_getElem lines j hj, hgl]
      simpa using hpl
    · intro k hk
      have hk' : k < lines.length := Nat.lt_trans hk hj
      rw [getD_eq_getElem lines k hk']
      simpa using hmin k hk
    · rw [calculateGameResult_find_some squares l hfind, getD_eq_getElem lines j hj, hgl]

/-- C3 witness: the all-X board satisfies the column `(0, 3, 6)` (line
index 3) yet the reported line is the row `(0, 1, 2)` (index 0). -/
theorem calculateGameResult_priority_witness :
    (3 < lines.length ∧
      checkLine (List.replicate 9 (some Mark.X)) (lines.getD 3 (0, 0, 0)) = true) ∧
    (lines = [(0, 1, 2), (3, 4, 5), (6, 7, 8),
              (0, 3, 6), (1, 4, 7), (2, 5, 8),
              (0, 4, 8), (2, 4, 6)] ∧
    (∃ j, j ≤ 3 ∧ j < lines.length ∧
      checkLine (List.replicate 9 (some Mark.X)) (lines.getD j (0, 0, 0)) = true ∧
      (∀ k, k < j →
        checkLine (List.replicate 9 (some Mark.X)) (lines.getD k (0, 0, 0)) = false) ∧
      calculateGameResult (List.replicate 9 (some Mark.X)) =
        { status := GameStatus.HasWinner,
          winner := getCell (List.replicate 9 (some Mark.X)) (lines.getD j (0, 0, 0)).1,
          winnerLine := some (lines.getD j (0, 0, 0)) }) ∧
    (∀ m : Mark, calculateGameResult (List.replicate 9 (some m)) =
      { status := GameStatus.HasWinner, winner := some m,
        winnerLine := some (0, 1, 2) })) :=
  ⟨⟨by decide, by decide⟩,
    calculateGameResult_priority (List.replicate 9 (some Mark.X)) 3 (by decide) (by decide)⟩

/-- C9: the version-1 evaluator `calculateWinnerLine` returns a non-null
line exactly when `calculateGameResult` reports `Has Winner`; in that case
the line equals `winnerLine` and the mark at the line's first index is the
`winner` (a genuine mark). -/
theorem calculateWinnerLine_equiv (squares : Board) :
    ((calculateWinnerLine squares).isSome = true ↔
      (calculateGameResult squares).status = GameStatus.HasWinner) ∧
    (∀ l, calculateWinnerLine squares = some l →
      (calculateGameResult squares).winnerLine = some l ∧
      (calculateGameResult squares).winner = getCell squares l.1 ∧
      ∃ m : Mark, getCell squares l.1 = some m) := by
  cases hfind : lines.find? (fun l => checkLine squares l) with
  | none =>
    rw [calculateGameResult_find_none squares hfind]
    constructor
    · unfold calculateWinnerLine
      rw [hfind]
      constructor
      · intro h
        simp at h
      · intro h
        by_cases hall : squares.all (fun c => c.isSome) = true <;> simp [hall] at h
    · intro l hl
      unfold calculateWinnerLine at hl
      rw [hfind] at hl
      exact absurd hl (by simp)
  | some l =>
    rw [calculateGameResult_find_some squares l hfind]
    have hpl : checkLine squares l = true := by
      simpa using List.find?_some hfind
    obtain ⟨m, hm⟩ := (checkLine_iff squares l).mp hpl
    constructor
    · unfold calculateWinnerLine
      rw [hfind]
      simp
    · intro l' hl'
      unfold calculateWinnerLine at hl'
      rw [hfind] at hl'
      cases hl'
      exact ⟨rfl, rfl, m, hm.1⟩

/-- C9 witness: on the top-row-X board both evaluators agree on the winning
line and winner. -/
theorem calculateWinnerLine_equiv_witness :
    calculateWinnerLine (List.replicate 3 (some Mark.X) ++ List.replicate 6 (none : Cell)) =
      some (0, 1, 2) ∧
    ((calculateGameResult (List.replicate 3 (some Mark.X) ++ List.replicate 6 (none : Cell))).winnerLine =
        some (0, 1, 2) ∧
      (calculateGameResult (List.replicate 3 (some Mark.X) ++ List.replicate 6 (none : Cell))).winner =
        getCell (List.replicate 3 (some Mark.X) ++ List.replicate 6 (none : Cell)) (0, 1, 2).1 ∧
      ∃ m : Mark,
        getCell (List.replicate 3 (some Mark.X) ++ List.replicate 6 (none : Cell)) (0, 1, 2).1 =
          some m) :=
  ⟨by decide,
    (calculateWinnerLine_equiv
      (List.replicate 3 (some Mark.X) ++ List.replicate 6 (none : Cell))).2
      (0, 1, 2) (by decide)⟩

/-- C4: a click on a filled cell, or on any cell once the game is not
'Not Finished', is a silent no-op: the state (history, currentMove, hence
the current board) is returned unchanged and no error is signalled. -/
theorem play_noop (s : GameState) (squares : Board) (i : Fin 9)
    (hb : currentSquares s = some squares)
    (h : (getCell squares i.val).isSome = true ∨
      (calculateGameResult squares).status ≠ GameStatus.NotFinished) :
    play s i = some s := by
  have hclick : handleClick (xIsNext s) squares i = none := by
    unfold handleClick
    rcases h with h | h
    · simp [h]
    · simp [bne_iff_ne, h]
  simp only [play, hb, hclick]

/-- C4 witness: clicking the already-filled square 0. -/
theorem play_noop_witness :
    (currentSquares { history := [emptyBoard.set 0 (some Mark.X)], currentMove := 0 } =
        some (emptyBoard.set 0 (some Mark.X)) ∧
      (getCell (emptyBoard.set 0 (some Mark.X)) (0 : Fin 9).val).isSome = true) ∧
    play { history := [emptyBoard.set 0 (some Mark.X)], currentMove := 0 } 0 =
      some { history := [emptyBoard.set 0 (some Mark.X)], currentMove := 0 } :=
  ⟨⟨by decide, by decide⟩,
    play_noop { history := [emptyBoard.set 0 (some Mark.X)], currentMove := 0 }
      (emptyBoard.set 0 (some Mark.X)) 0 (by decide) (Or.inl (by decide))⟩

/-- C6: `jumpTo` sets `currentMove` to the requested move and changes
nothing else: the history keeps its length and every board, and every cell
of every board, is untouched. -/
theorem jumpTo_frame (s : GameState) (m : Int) :
    (jumpTo s m).currentMove = m ∧
    (jumpTo s m).history = s.history ∧
    (jumpTo s m).history.length = s.history.length ∧
    (∀ k, (jumpTo s m).history.getD k [] = s.history.getD k []) ∧
    (∀ k j, getCell ((jumpTo s m).history.getD k []) j =
      getCell (s.history.getD k []) j) :=
  ⟨rfl, rfl, rfl, fun _ => rfl, fun _ _ => rfl⟩

/-- C10: `jumpTo` performs no range validation: any integer `m`, negative
or past the end of the history, is stored as-is into `currentMove`, and a
subsequent `history[currentMove]` read yields no board (`undefined`). -/
theorem jumpTo_no_validation (s : GameState) (m : Int)
    (h : m < 0 ∨ (s.history.length : Int) ≤ m) :
    (jumpTo s m).currentMove = m ∧
    (jumpTo s m).history = s.history ∧
    currentSquares (jumpTo s m) = none := by
  refine ⟨rfl, rfl, ?_⟩
  unfold currentSquares getBoard? jumpTo
  dsimp only
  rcases h with h | h
  · rw [if_neg (by omega)]
  · rw [if_pos (by omega)]
    apply List.getElem?_eq_none
    omega

/-- C10 witness: jumping to move -1 of the fresh game. -/
theorem jumpTo_no_validation_witness :
    ((-1 : Int) < 0 ∨ (initialGameState.history.length : Int) ≤ -1) ∧
    ((jumpTo initialGameState (-1)).currentMove = -1 ∧
      (jumpTo initialGameState (-1)).history = initialGameState.history ∧
      currentSquares (jumpTo initialGameState (-1)) = none) :=
  ⟨Or.inl (by decide),
    jumpTo_no_validation initialGameState (-1) (Or.inl (by decide))⟩

/-- The spec's mover mark at move index `n`: X when `n` is even, O when
odd. -/
def moverMark (n : Nat) : Mark :=
  if n % 2 = 0 then Mark.X else Mark.O

theorem currentSquares_some {s : GameState} {b : Board}
    (h : currentSquares s = some b) :
    0 ≤ s.currentMove ∧ ∃ hlt : s.currentMove.toNat < s.history.length,
      s.history[s.currentMove.toNat] = b := by
  unfold currentSquares getBoard? at h
  by_cases h0 : 0 ≤ s.currentMove
  · rw [if_pos h0] at h
    exact ⟨h0, List.getElem?_eq_some.mp h⟩
  · rw [if_neg h0] at h
    exact absurd h (by simp)

theorem xIsNext_eq_moverMark (s : GameState) (h0 : 0 ≤ s.currentMove) :
    (if xIsNext s then Mark.X else Mark.O) = moverMark s.currentMove.toNat := by
  unfold xIsNext moverMark
  by_cases h : s.currentMove.toNat % 2 = 0
  · rw [if_pos (by simp only [beq_iff_eq]; omega), if_pos h]
  · rw [if_neg (by simp only [beq_iff_eq]; omega), if_neg h]

theorem jsSlice_nonneg (l : List Board) (e : Int) (he : 0 ≤ e) :
    jsSlice l e = l.take e.toNat := by
  unfold jsSlice
  rw [if_neg (by omega)]

theorem handlePlay_eq (s : GameState) (next : Board) :
    handlePlay s next =
      { history := jsSlice s.history (s.currentMove + 1) ++ [next],
        currentMove :=
          ((jsSlice s.history (s.currentMove + 1) ++ [next]).length : Int) - 1 } :=
  rfl

theorem getD_append_left {α : Type} (l1 l2 : List α) (k : Nat)
    (h : k < l1.length) (d : α) : (l1 ++ l2).getD k d = l1.getD k d := by
  rw [List.getD_eq_getElem?_getD, List.getD_eq_getElem?_getD,
    List.getElem?_append, if_pos h]

theorem getD_append_last {α : Type} (l1 l2 : List α) (k : Nat)
    (h : k = l1.length) (d : α) : (l1 ++ l2).getD k d = l2.getD 0 d := by
  subst h
  rw [List.getD_eq_getElem?_getD, List.getD_eq_getElem?_getD,
    List.getElem?_append_right (Nat.le_refl _), Nat.sub_self]

theorem getD_take {α : Type} (l : List α) (n k : Nat) (h : k < n) (d : α) :
    (l.take n).getD k d = l.getD k d := by
  rw [List.getD_eq_getElem?_getD, List.getD_eq_getElem?_getD,
    List.getElem?_take, if_pos h]

theorem getCell_set_self (b : Board) (j : Nat) (v : Cell) (h : j < b.length) :
    getCell (b.set j v) j = v := by
  unfold getCell
  rw [List.getD_eq_getElem?_getD, List.getElem?_set_eq_of_lt v h]
  rfl

theorem getCell_set_ne (b : Board) (j k : Nat) (v : Cell) (h : j ≠ k) :
    getCell (b.set j v) k = getCell b k := by
  unfold getCell
  rw [List.getD_eq_getElem?_getD, List.getD_eq_getElem?_getD,
    List.getElem?_set_ne h]

/-- C5: an accepted click — empty target cell, game not finished, valid
`currentMove` — truncates the history to entries `[0..currentMove]`, appends
the old current board with exactly the clicked cell set to the mover's mark,
and selects the new last index. -/
theorem play_accepted (s : GameState) (b : Board) (i : Fin 9)
    (hb : currentSquares s = some b) (h9 : b.length = 9)
    (hempty : getCell b i.val = none)
    (hnf : (calculateGameResult b).status = GameStatus.NotFinished) :
    play s i = some
      { history := s.history.take (s.currentMove.toNat + 1) ++
          [b.set i.val (some (moverMark s.currentMove.toNat))],
        currentMove := s.currentMove + 1 } ∧
    (s.history.take (s.currentMove.toNat + 1) ++
        [b.set i.val (some (moverMark s.currentMove.toNat))]).length =
      s.currentMove.toNat + 2 ∧
    (∀ k, k < s.currentMove.toNat + 1 →
      (s.history.take (s.currentMove.toNat + 1) ++
        [b.set i.val (some (moverMark s.currentMove.toNat))]).getD k [] =
      s.history.getD k []) ∧
    getCell (b.set i.val (some (moverMark s.currentMove.toNat))) i.val =
      some (moverMark s.currentMove.toNat) ∧
    (∀ j, j ≠ i.val →
      getCell (b.set i.val (some (moverMark s.currentMove.toNat))) j =
        getCell b j) := by
  obtain ⟨h0, hlt, hget⟩ := currentSquares_some hb
  have htake : (s.history.take (s.currentMove.toNat + 1)).length =
      s.currentMove.toNat + 1 := by
    rw [List.length_take]
    omega
  have hclick : handleClick (xIsNext s) b i =
      some (b.set i.val (some (moverMark s.currentMove.toNat))) := by
    unfold handleClick
    rw [if_neg (by simp [hempty, hnf]), xIsNext_eq_moverMark s h0]
  refine ⟨?_, ?_, ?_, ?_, ?_⟩
  · simp only [play, hb, hclick, handlePlay_eq]
    rw [jsSlice_nonneg _ _ (by omega)]
    have harg : (s.currentMove + 1).toNat = s.currentMove.toNat + 1 := by omega
    rw [harg]
    have hcm : ((s.history.take (s.currentMove.toNat + 1) ++
        [b.set i.val (some (moverMark s.currentMove.toNat))]).length : Int) - 1 =
        s.currentMove + 1 := by
      rw [List.length_append, htake]
      simp only [List.length_singleton]
      omega
    rw [hcm]
  · rw [List.length_append, htake]
    rfl
  · intro k hk
    rw [getD_append_left _ _ k (by omega), getD_take _ _ k hk]
  · exact getCell_set_self b i.val _ (by omega)
  · intro j hj
    exact getCell_set_ne b i.val j _ (Ne.symm hj)

/-- C5 witness: from a history of length 5 at `currentMove = 2`, one
accepted click yields a history of length 4 keeping the first 3 entries. -/
theorem play_accepted_witness :
    play { history := [emptyBoard, emptyBoard, emptyBoard, emptyBoard, emptyBoard],
           currentMove := 2 } (4 : Fin 9) =
      some { history := [emptyBoard, emptyBoard, emptyBoard,
               emptyBoard.set 4 (some Mark.X)],
             currentMove := 3 } ∧
    ([emptyBoard, emptyBoard, emptyBoard,
        emptyBoard.set 4 (some Mark.X)] : List Board).length = 4 := by
  have h := (play_accepted
    { history := [emptyBoard, emptyBoard, emptyBoard, emptyBoard, emptyBoard],
      currentMove := 2 }
    emptyBoard (4 : Fin 9) (by decide) (by decide) (by decide) (by decide)).1
  exact ⟨h, by decide⟩

theorem find?_eq_head?_filter {α : Type} (p : α → Bool) (l : List α) :
    l.find? p = (l.filter p).head? := by
  induction l with
  | nil => rfl
  | cons a t ih =>
    by_cases h : p a = true
    · rw [List.find?_cons_of_pos _ h, List.filter_cons_of_pos h]
      rfl
    · rw [List.find?_cons_of_neg _ (by simpa using h),
        List.filter_cons_of_neg (by simpa using h), ih]

/-- C8 counterexample: two adjacent boards differing in TWO cells (indices
0 and 1). The claim says the derivation signals a fatal error here; the
code instead returns the location of the first differing cell, `(0, 0)`. -/
theorem moveLocation_counterexample :
    (diffIndices emptyBoard
      ((emptyBoard.set 0 (some Mark.X)).set 1 (some Mark.X))).length = 2 ∧
    moveLocation emptyBoard
      ((emptyBoard.set 0 (some Mark.X)).set 1 (some Mark.X)) = some (0, 0) ∧
    moveLocation emptyBoard
      ((emptyBoard.set 0 (some Mark.X)).set 1 (some Mark.X)) ≠ none := by
  decide

/-- C8 (amended): for two adjacent boards differing in exactly one cell the
derivation returns that cell's `(index / 3, index % 3)`; for boards
differing in zero cells it signals the fatal 'Invalid move' condition
(modelled `none`); but for boards differing in more than one cell it
returns the location of the FIRST differing cell in index order, without
signaling. -/
theorem moveLocation_spec (prev cur : Board) :
    (∀ j, diffIndices prev cur = [j] →
      moveLocation prev cur = some (j / 3, j % 3)) ∧
    (diffIndices prev cur = [] → moveLocation prev cur = none) ∧
    (∀ j js, diffIndices prev cur = j :: js →
      moveLocation prev cur = some (j / 3, j % 3)) := by
  have hkey : (List.range cur.length).find?
      (fun i => getCell cur i != getCell prev i) = (diffIndices prev cur).head? := by
    unfold diffIndices
    exact find?_eq_head?_filter _ _
  refine ⟨?_, ?_, ?_⟩
  · intro j h
    unfold moveLocation
    rw [hkey, h]
    rfl
  · intro h
    unfold moveLocation
    rw [hkey, h]
    rfl
  · intro j js h
    unfold moveLocation
    rw [hkey, h]
    rfl

/-- C8 witness: boards differing exactly in cell 4 give location (1, 1). -/
theorem moveLocation_spec_witness :
    diffIndices emptyBoard (emptyBoard.set 4 (some Mark.O)) = [4] ∧
    moveLocation emptyBoard (emptyBoard.set 4 (some Mark.O)) = some (1, 1) := by
  refine ⟨by decide, ?_⟩
  exact (moveLocation_spec emptyBoard (emptyBoard.set 4 (some Mark.O))).1 4 (by decide)

/-- The spec's description of one played move between adjacent history
entries: exactly one cell (index `j`) changes, from empty to the mark of
the mover of move `n` (X when `n` is even, O when odd). -/
def OneMoveDiff (prev next : Board) (n : Nat) : Prop :=
  ∃ j, j < 9 ∧ getCell prev j = none ∧
    getCell next j = some (moverMark n) ∧
    ∀ k, k ≠ j → getCell next k = getCell prev k

/-- The states reachable from the fresh game by any sequence of clicks
(`play`) and in-range `jumpTo` operations. -/
inductive Reachable : GameState → Prop where
  | init : Reachable initialGameState
  | play {s s' : GameState} (i : Fin 9) :
      Reachable s → play s i = some s' → Reachable s'
  | jump {s : GameState} (m : Nat) :
      Reachable s → m < s.history.length → Reachable (jumpTo s (m : Int))

/-- The data-model invariant of the spec, strengthened with the 9-cell
board-length fact needed to maintain it. -/
def GameInv (s : GameState) : Prop :=
  s.history.getD 0 [] = emptyBoard ∧
  1 ≤ s.history.length ∧
  (∀ b ∈ s.history, b.length = 9) ∧
  (∀ n, 0 < n → n < s.history.length →
    OneMoveDiff (s.history.getD (n - 1) []) (s.history.getD n []) (n - 1)) ∧
  0 ≤ s.currentMove ∧ s.currentMove < (s.history.length : Int)

theorem reachable_inv {s : GameState} (h : Reachable s) : GameInv s := by
  induction h with
  | init =>
    refine ⟨rfl, by decide, by decide, ?_, by decide, by decide⟩
    intro n hn1 hn2
    have hlen : initialGameState.history.length = 1 := rfl
    omega
  | @jump s m hr hbound ih =>
    obtain ⟨h0, h1, h2, h3, h4, h5⟩ := ih
    refine ⟨h0, h1, h2, h3, ?_, ?_⟩
    · show (0 : Int) ≤ (m : Int)
      omega
    · show (m : Int) < (s.history.length : Int)
      omega
  | @play s s' i hr heq ih =>
    obtain ⟨h0, h1, h2, h3, h4, h5⟩ := ih
    have hlt : s.currentMove.toNat < s.history.length := by omega
    set b : Board := s.history.getD s.currentMove.toNat [] with hbdef
    have hbget : s.history[s.currentMove.toNat]? = some b := by
      rw [List.getElem?_eq_getElem hlt, hbdef, List.getD_eq_getElem?_getD,
        List.getElem?_eq_getElem hlt]
      rfl
    have hcs : currentSquares s = some b := by
      unfold currentSquares getBoard?
      rw [if_pos h4]
      exact hbget
    have hb9 : b.length = 9 := by
      apply h2
      rw [hbdef, List.getD_eq_getElem?_getD, List.getElem?_eq_getElem hlt]
      exact List.getElem_mem hlt
    simp only [play, hcs] at heq
    cases hclick : handleClick (xIsNext s) b i with
    | none =>
      simp only [hclick, Option.some.injEq] at heq
      subst heq
      exact ⟨h0, h1, h2, h3, h4, h5⟩
    | some next =>
      simp only [hclick, Option.some.injEq] at heq
      subst heq
      unfold handleClick at hclick
      by_cases hguard : ((getCell b i.val).isSome
          || ((calculateGameResult b).status != GameStatus.NotFinished)) = true
      · rw [if_pos hguard] at hclick
        exact absurd hclick (by simp)
      · rw [if_neg hguard] at hclick
        have hnext : next = b.set i.val (some (moverMark s.currentMove.toNat)) := by
          have hinj := Option.some.inj hclick
          rw [← hinj, xIsNext_eq_moverMark s h4]
        have hempty : getCell b i.val = none := by
          simp only [Bool.or_eq_true, not_or] at hguard
          have hA := hguard.1
          cases hcell : getCell b i.val with
          | none => rfl
          | some v =>
            rw [hcell] at hA
            simp at hA
        have harg : (s.currentMove + 1).toNat = s.currentMove.toNat + 1 := by
          omega
        have htake : (s.history.take (s.currentMove.toNat + 1)).length =
            s.currentMove.toNat + 1 := by
          rw [List.length_take]
          omega
        unfold GameInv
        rw [handlePlay_eq, jsSlice_nonneg _ _ (by omega), harg]
        dsimp only
        refine ⟨?_, ?_, ?_, ?_, ?_, ?_⟩
        · rw [getD_append_left _ _ 0 (by rw [htake]; omega),
            getD_take _ _ 0 (by omega)]
          exact h0
        · rw [List.length_append]
          omega
        · intro b' hb'
          rcases List.mem_append.mp hb' with hmem | hmem
          · exact h2 b' (List.take_subset _ _ hmem)
          · rw [List.mem_singleton] at hmem
            subst hmem
            rw [hnext, List.length_set]
            exact hb9
        · intro n hn1 hn2
          rw [List.length_append, htake, List.length_singleton] at hn2
          by_cases hcase : n < s.currentMove.toNat + 1
          · rw [getD_append_left _ _ (n - 1) (by rw [htake]; omega),
              getD_append_left _ _ n (by rw [htake]; omega),
              getD_take _ _ (n - 1) (by omega), getD_take _ _ n (by omega)]
            exact h3 n hn1 (by omega)
          · have hneq : n = s.currentMove.toNat + 1 := by omega
            subst hneq
            rw [Nat.add_sub_cancel]
            rw [getD_append_left _ _ s.currentMove.toNat (by rw [htake]; omega),
              getD_take _ _ s.currentMove.toNat (by omega),
              getD_append_last _ _ _ htake.symm,
              List.getD_cons_zero]
            refine ⟨i.val, i.isLt, hempty, ?_, ?_⟩
            · rw [hnext]
              exact getCell_set_self b i.val _ (by rw [hb9]; exact i.isLt)
            · intro k hk
              rw [hnext]
              exact getCell_set_ne b i.val k _ (Ne.symm hk)
        · rw [List.length_append, htake, List.length_singleton]
          omega
        · rw [List.length_append, htake, List.length_singleton]
          omega

/-- C7: every state reachable from the fresh game by clicks and in-range
jumps satisfies the data-model invariants: `history[0]` is the all-empty
board, the history is never empty, each successive board differs from its
predecessor in exactly one cell changing from empty to the mover's mark
(X for an even move index, O for odd), and `currentMove` is always a valid
index into the history. -/
theorem reachable_invariants (s : GameState) (h : Reachable s) :
    s.history.getD 0 [] = emptyBoard ∧
    1 ≤ s.history.length ∧
    (∀ n, 0 < n → n < s.history.length →
      OneMoveDiff (s.history.getD (n - 1) []) (s.history.getD n []) (n - 1)) ∧
    0 ≤ s.currentMove ∧ s.currentMove < (s.history.length : Int) := by
  obtain ⟨h0, h1, h2, h3, h4, h5⟩ := reachable_inv h
  exact ⟨h0, h1, h3, h4, h5⟩

/-- The state reached from the fresh game by one click on square 0; used to
witness the reachability invariant. -/
def oneMoveState : GameState :=
  { history := [emptyBoard, emptyBoard.set 0 (some Mark.X)], currentMove := 1 }

/-- C7 witness: the state reached by one click on square 0. -/
theorem reachable_invariants_witness :
    oneMoveState.history.getD 0 [] = emptyBoard ∧
    1 ≤ oneMoveState.history.length ∧
    (∀ n, 0 < n → n < oneMoveState.history.length →
      OneMoveDiff (oneMoveState.history.getD (n - 1) [])
        (oneMoveState.history.getD n []) (n - 1)) ∧
    0 ≤ oneMoveState.currentMove ∧
    oneMoveState.currentMove < (oneMoveState.history.length : Int) :=
  reachable_invariants oneMoveState
    (Reachable.play (0 : Fin 9) Reachable.init (by decide))

end TicTacToe
